import Mathlib

/-!
Shallow embedding of the meazure-agg reporting tool (src/index.js).

The embedded parts are the aggregation and projection arithmetic:
`aggregateResults` (lines 105-145) and `addProjections` (lines 147-184),
together with the CLI date-range defaulting (lines 23-26).

Modelling choices:
* JavaScript numbers are modelled as exact rationals; where the code can
  produce non-finite values (division by zero in `addProjections`) the
  value space is `JsNum` = finite rational, NaN, Infinity or -Infinity,
  with multiplication, division and `Math.floor` following IEEE/JS rules.
* A JavaScript object is an ordered association list `List (String × JsVal)`;
  property assignment (`objSet`) replaces the first binding of the key in
  place or appends a fresh binding, and property read (`objGet`) returns the
  first binding.  This keeps the single namespace shared by the per-project
  groups and the synthesized `total` / `haveEntryToday` / `projections` keys.
* Calendar dates in `addProjections` are integer day numbers; day 0 is
  1970-01-01, a Thursday, so the moment-style weekday index
  (0 = Sunday .. 6 = Saturday) of day `d` is `(d + 4) % 7`.
* Timestamps in the `haveEntryToday` check are integer milliseconds; the
  process UTC offset is in minutes, as in moment's `utcOffset()`.
-/

namespace MeazureAgg

/-- JavaScript number as produced by the arithmetic in `addProjections`:
a finite rational, NaN, Infinity or -Infinity. -/
inductive JsNum where
  | fin (q : ℚ)
  | nan
  | inf
  | ninf
deriving DecidableEq, Repr

/-- JS division `a / b` of two finite numbers: finite quotient when `b ≠ 0`,
otherwise `±Infinity` by the sign of `a`, and `NaN` for `0 / 0`. -/
def jsDiv (a b : ℚ) : JsNum :=
  if b ≠ 0 then .fin (a / b)
  else if 0 < a then .inf
  else if a < 0 then .ninf
  else .nan

/-- JS multiplication on `JsNum`: `NaN` absorbs; infinities follow sign
rules, with `±Infinity * 0 = NaN`. -/
def jsMul : JsNum → JsNum → JsNum
  | .nan, _ => .nan
  | _, .nan => .nan
  | .fin a, .fin b => .fin (a * b)
  | .inf, .fin b => if 0 < b then .inf else if b < 0 then .ninf else .nan
  | .fin a, .inf => if 0 < a then .inf else if a < 0 then .ninf else .nan
  | .ninf, .fin b => if 0 < b then .ninf else if b < 0 then .inf else .nan
  | .fin a, .ninf => if 0 < a then .ninf else if a < 0 then .inf else .nan
  | .inf, .inf => .inf
  | .inf, .ninf => .ninf
  | .ninf, .inf => .ninf
  | .ninf, .ninf => .inf

/-- `Math.floor`: floor of a finite value; `NaN` and `±Infinity` are fixed. -/
def jsFloor : JsNum → JsNum
  | .fin q => .fin (⌊q⌋ : ℤ)
  | x => x

/-- A `JsNum` is finite when it is a rational value. -/
def JsNum.isFinite : JsNum → Bool
  | .fin _ => true
  | _ => false

/-- One aggregate of a project (or the grand total): `{hours, earnings}`. -/
structure ProjectAggregate where
  hours : ℚ
  earnings : ℚ
deriving DecidableEq, Repr

/-- The `projections` object attached by `addProjections` (lines 174-182). -/
structure Projection where
  weekDays : ℕ
  weekDaysPast : ℕ
  percentComplete : JsNum
  avgEarningsPerDay : JsNum
  avgHoursPerDay : JsNum
  estimatedEarnings : JsNum
  estimatedHours : JsNum
deriving DecidableEq, Repr

/-- A value stored in the aggregate-result object: a per-project (or total)
aggregate, the `haveEntryToday` boolean, or the `projections` record. -/
inductive JsVal where
  | agg (a : ProjectAggregate)
  | boolV (b : Bool)
  | proj (p : Projection)
deriving DecidableEq, Repr

/-- One fetched time entry: `Date` is a timestamp in integer milliseconds,
`DurationSeconds` a JS number. -/
structure Entry where
  date : ℤ
  durationSeconds : ℚ
  projectName : String
  taskName : String
deriving DecidableEq, Repr

/-- The persisted configuration `{uname, pword, rates?}`; `rates` is an
optional object mapping project names (and optionally `_default`) to
numeric hourly rates. -/
structure Config where
  uname : String
  pword : String
  rates : Option (List (String × ℚ))
deriving DecidableEq, Repr

/-- Property read on a JS object: the first binding of the key, if any. -/
def objGet : List (String × JsVal) → String → Option JsVal
  | [], _ => none
  | p :: rest, k => if p.1 = k then some p.2 else objGet rest k

/-- Property assignment on a JS object: replace the first binding of the
key in place, or append a new binding when the key is absent. -/
def objSet : List (String × JsVal) → String → JsVal → List (String × JsVal)
  | [], k, v => [(k, v)]
  | p :: rest, k, v => if p.1 = k then (k, v) :: rest else p :: objSet rest k v

/-- First binding of a key in a rate table. -/
def lookupNum : List (String × ℚ) → String → Option ℚ
  | [], _ => none
  | p :: rest, k => if p.1 = k then some p.2 else lookupNum rest k

/-- JS truthiness of a looked-up rate: present and nonzero
(in JS, `undefined` and `0` are falsy). -/
def truthyNum : Option ℚ → Bool
  | none => false
  | some v => v ≠ 0

/-- JS truthiness of a looked-up object property: absent and `false` are
falsy; any object value is truthy. -/
def jsTruthy : Option JsVal → Bool
  | none => false
  | some (.boolV b) => b
  | some (.agg _) => true
  | some (.proj _) => true

/-- One step of `_.groupBy`: add entry `e` to its project's group, creating
the group at the end when the project is new. -/
def groupStep (acc : List (String × List Entry)) (e : Entry) :
    List (String × List Entry) :=
  if acc.any (fun p => p.1 = e.projectName) then
    acc.map (fun p => if p.1 = e.projectName then (p.1, p.2 ++ [e]) else p)
  else acc ++ [(e.projectName, [e])]

/-- `_.groupBy(entries, 'ProjectName')` (line 106): association list from
project name to its entries, keys in order of first occurrence, each
group keeping entry order. -/
def groupByProjectName (entries : List Entry) : List (String × List Entry) :=
  entries.foldl groupStep []

/-- Rate resolution (lines 113-118): `rates[project]` when truthy, else
`rates._default` when truthy, else `0`. -/
def resolveRate (rates : Option (List (String × ℚ))) (project : String) : ℚ :=
  match rates with
  | none => 0
  | some rs =>
    if truthyNum (lookupNum rs project) then (lookupNum rs project).getD 0
    else if truthyNum (lookupNum rs "_default") then (lookupNum rs "_default").getD 0
    else 0

/-- Per-group aggregate (lines 108-120): sum the `DurationSeconds`,
`hours = summed / 60 / 60`, `earnings = rate * hours`. -/
def aggForGroup (config : Config) (project : String) (items : List Entry) :
    ProjectAggregate :=
  let summed := items.foldl (fun memo i => memo + i.durationSeconds) 0
  let hours := summed / 60 / 60
  { hours := hours, earnings := resolveRate config.rates project * hours }

/-- The `_.mapValues` stage (lines 107-121): every group mapped to its
aggregate, keys in group order. -/
def aggregatedPairs (entries : List Entry) (config : Config) :
    List (String × ProjectAggregate) :=
  (groupByProjectName entries).map fun p => (p.1, aggForGroup config p.1 p.2)

/-- The grand total (lines 122-126): fold of `hours` and `earnings` over the
values of the aggregated object, in insertion order. -/
def totalAgg (entries : List Entry) (config : Config) : ProjectAggregate :=
  (aggregatedPairs entries config).foldl
    (fun memo p => { hours := memo.hours + p.2.hours,
                     earnings := memo.earnings + p.2.earnings })
    { hours := 0, earnings := 0 }

/-- The `haveEntryToday` detection (lines 129-142): some entry whose
timestamp, minus the local UTC offset (minutes, converted to ms), lies in
`[now, now + 1 day]` inclusive, where `now` is the start of today in ms. -/
def haveEntryTodayFlag (entries : List Entry) (nowMs utcOffset : ℤ) : Bool :=
  entries.any fun e =>
    decide (nowMs ≤ e.date - utcOffset * 60000) &&
    decide (e.date - utcOffset * 60000 ≤ nowMs + 86400000)

/-- `aggregateResults(entries, config)` (lines 105-145): the aggregated
object with per-project keys, then `total` assigned, then `haveEntryToday`
assigned.  `nowMs` is the start of today in milliseconds and `utcOffset`
the process UTC offset in minutes, both ambient in the source. -/
def aggregateResults (entries : List Entry) (config : Config)
    (nowMs utcOffset : ℤ) : List (String × JsVal) :=
  let obj := (aggregatedPairs entries config).map fun p => (p.1, JsVal.agg p.2)
  let obj := objSet obj "total" (.agg (totalAgg entries config))
  objSet obj "haveEntryToday" (.boolV (haveEntryTodayFlag entries nowMs utcOffset))

/-- moment-style weekday index of day number `d` (0 = Sunday .. 6 = Saturday);
day 0 is 1970-01-01, a Thursday. -/
def weekday (d : ℤ) : ℤ := (d + 4) % 7

/-- The days walked by the loop at lines 158-168: `fromD` to `toD` inclusive
(empty when `toD < fromD`). -/
def dayRange (fromD toD : ℤ) : List ℤ :=
  (List.range (toD - fromD + 1).toNat).map fun i => fromD + i

/-- The loop's week-day test (line 161): `c.weekday() < 6 && c.weekday() > 0`. -/
def isWeekDay (d : ℤ) : Bool :=
  decide (weekday d < 6) && decide (0 < weekday d)

/-- `weekDays` counted by the loop: week days from `fromD` to `toD` inclusive. -/
def weekDaysInRange (fromD toD : ℤ) : ℕ :=
  (dayRange fromD toD).countP isWeekDay

/-- `weekDaysPast` counted by the loop: week days in range strictly before
the reference day `now`. -/
def weekDaysElapsedBefore (fromD toD now : ℤ) : ℕ :=
  (dayRange fromD toD).countP fun d => isWeekDay d && decide (d < now)

/-- Read of `entries.total` in `addProjections` (lines 171-179); in the
pipeline the key always holds an aggregate. -/
def getAgg (o : List (String × JsVal)) (k : String) : ProjectAggregate :=
  match objGet o k with
  | some (.agg a) => a
  | _ => { hours := 0, earnings := 0 }

/-- `addProjections(entries)` (lines 147-184).  `fromD`, `toD` are the parsed
CLI dates and `nowD` the start of today, all as day numbers.  Returns the
input unchanged when `fromD >= toD`; otherwise counts week days (shifting
the reference to tomorrow when `haveEntryToday` is truthy) and attaches the
`projections` object. -/
def addProjections (fromD toD nowD : ℤ) (entries : List (String × JsVal)) :
    List (String × JsVal) :=
  if toD ≤ fromD then entries
  else
    let now := if jsTruthy (objGet entries "haveEntryToday") then nowD + 1 else nowD
    let weekDays := weekDaysInRange fromD toD
    let weekDaysPast := weekDaysElapsedBefore fromD toD now
    let total := getAgg entries "total"
    let ratioComplete := jsDiv (weekDaysPast : ℚ) (weekDays : ℚ)
    let percentComplete := jsFloor (jsMul ratioComplete (.fin 100))
    let earningsPerDay := jsFloor (jsDiv total.earnings (weekDaysPast : ℚ))
    let estimatedEarnings := jsFloor (jsMul earningsPerDay (.fin (weekDays : ℚ)))
    let estimatedHours := jsMul (.fin (weekDays : ℚ)) (jsDiv total.hours (weekDaysPast : ℚ))
    objSet entries "projections"
      (.proj { weekDays := weekDays,
               weekDaysPast := weekDaysPast,
               percentComplete := percentComplete,
               avgEarningsPerDay := earningsPerDay,
               avgHoursPerDay := jsDiv total.hours (weekDaysPast : ℚ),
               estimatedEarnings := estimatedEarnings,
               estimatedHours := estimatedHours })

/-- JS truthiness of a CLI string flag: absent and the empty string are falsy. -/
def argvTruthy : Option String → Bool
  | none => false
  | some s => s ≠ ""

/-- CLI date-range defaulting (lines 23-26): when `-f` or `-t` is falsy,
both dates are replaced by the start and end of the current month. -/
def resolveRange (f t : Option String) (monthStart monthEnd : String) :
    String × String :=
  if argvTruthy f && argvTruthy t then (f.getD "", t.getD "")
  else (monthStart, monthEnd)

/-! ### Object lemmas -/

theorem objGet_objSet_self (o : List (String × JsVal)) (k : String) (v : JsVal) :
    objGet (objSet o k v) k = some v := by
  induction o with
  | nil => simp [objSet, objGet]
  | cons p rest ih =>
    by_cases h : p.1 = k
    · simp [objSet, h, objGet]
    · simp [objSet, h, objGet, ih]

theorem objGet_objSet_ne (o : List (String × JsVal)) (k : String) (v : JsVal)
    (k' : String) (h : k' ≠ k) :
    objGet (objSet o k v) k' = objGet o k' := by
  induction o with
  | nil => simp [objSet, objGet, Ne.symm h]
  | cons p rest ih =>
    by_cases hp : p.1 = k
    · simp [objSet, hp, objGet, Ne.symm h]
    · simp only [objSet, hp, if_false, objGet]
      by_cases hp' : p.1 = k' <;> simp [hp', ih]

theorem objGet_objSet_cases (o : List (String × JsVal)) (k : String) (v : JsVal)
    (k' : String) (w : JsVal) (h : objGet (objSet o k v) k' = some w) :
    w = v ∨ objGet o k' = some w := by
  by_cases hk : k' = k
  · subst hk
    rw [objGet_objSet_self] at h
    exact Or.inl (Option.some_injective _ h).symm
  · rw [objGet_objSet_ne o k v k' hk] at h
    exact Or.inr h

theorem objGet_mem (o : List (String × JsVal)) (k : String) (w : JsVal)
    (h : objGet o k = some w) : (k, w) ∈ o := by
  induction o with
  | nil => simp [objGet] at h
  | cons p rest ih =>
    by_cases hp : p.1 = k
    · simp only [objGet, hp, if_true, Option.some.injEq] at h
      subst h
      exact hp ▸ List.mem_cons_self _ _
    · simp only [objGet, hp, if_false] at h
      exact List.mem_cons_of_mem _ (ih h)

/-! ### Fold and sum lemmas -/

theorem foldl_add_map_sum {α : Type} (f : α → ℚ) (l : List α) (init : ℚ) :
    l.foldl (fun m a => m + f a) init = init + (l.map f).sum := by
  induction l generalizing init with
  | nil => simp
  | cons a t ih => simp [ih, add_assoc]

theorem foldl_pair_sum (l : List (String × ProjectAggregate))
    (init : ProjectAggregate) :
    l.foldl (fun memo p => { hours := memo.hours + p.2.hours,
                             earnings := memo.earnings + p.2.earnings }) init =
      { hours := init.hours + (l.map fun p => p.2.hours).sum,
        earnings := init.earnings + (l.map fun p => p.2.earnings).sum } := by
  induction l generalizing init with
  | nil => simp
  | cons a t ih => simp [ih, add_assoc]

theorem totalAgg_eq_sums (entries : List Entry) (config : Config) :
    totalAgg entries config =
      { hours := ((aggregatedPairs entries config).map fun p => p.2.hours).sum,
        earnings := ((aggregatedPairs entries config).map fun p => p.2.earnings).sum } := by
  rw [totalAgg, foldl_pair_sum]
  simp

/-! ### Weekday and projection lemmas -/

theorem weekday_nonneg (d : ℤ) : 0 ≤ weekday d := by
  unfold weekday
  exact Int.emod_nonneg _ (by norm_num)

theorem weekday_lt_seven (d : ℤ) : weekday d < 7 := by
  unfold weekday
  exact Int.emod_lt_of_pos _ (by norm_num)

/-- The loop's test `weekday < 6 && weekday > 0` selects exactly the days
whose weekday index is neither 0 (Sunday) nor 6 (Saturday). -/
theorem isWeekDay_eq_not_weekend (d : ℤ) :
    isWeekDay d = (decide (weekday d ≠ 0) && decide (weekday d ≠ 6)) := by
  have h0 := weekday_nonneg d
  have h7 := weekday_lt_seven d
  by_cases h1 : weekday d = 0
  · simp [isWeekDay, h1]
  · by_cases h2 : weekday d = 6
    · simp [isWeekDay, h2]
    · have ha : weekday d < 6 := by omega
      have hb : 0 < weekday d := by omega
      simp [isWeekDay, h1, h2, ha, hb]

theorem weekDaysElapsedBefore_le (fromD toD now : ℤ) :
    weekDaysElapsedBefore fromD toD now ≤ weekDaysInRange fromD toD := by
  unfold weekDaysElapsedBefore weekDaysInRange
  apply List.countP_mono_left
  intro d _ h
  exact (Bool.and_eq_true _ _ |>.mp h).1

/-- Shape of the object returned by `addProjections` on a proper range:
the input with the `projections` record attached. -/
theorem addProjections_objGet (fromD toD nowD : ℤ) (o : List (String × JsVal))
    (h : fromD < toD) :
    objGet (addProjections fromD toD nowD o) "projections" =
      some (.proj
        { weekDays := weekDaysInRange fromD toD,
          weekDaysPast := weekDaysElapsedBefore fromD toD
            (if jsTruthy (objGet o "haveEntryToday") then nowD + 1 else nowD),
          percentComplete := jsFloor (jsMul
            (jsDiv
              (weekDaysElapsedBefore fromD toD
                (if jsTruthy (objGet o "haveEntryToday") then nowD + 1 else nowD) : ℚ)
              (weekDaysInRange fromD toD : ℚ))
            (.fin 100)),
          avgEarningsPerDay := jsFloor (jsDiv (getAgg o "total").earnings
            (weekDaysElapsedBefore fromD toD
              (if jsTruthy (objGet o "haveEntryToday") then nowD + 1 else nowD) : ℚ)),
          avgHoursPerDay := jsDiv (getAgg o "total").hours
            (weekDaysElapsedBefore fromD toD
              (if jsTruthy (objGet o "haveEntryToday") then nowD + 1 else nowD) : ℚ),
          estimatedEarnings := jsFloor (jsMul
            (jsFloor (jsDiv (getAgg o "total").earnings
              (weekDaysElapsedBefore fromD toD
                (if jsTruthy (objGet o "haveEntryToday") then nowD + 1 else nowD) : ℚ)))
            (.fin (weekDaysInRange fromD toD : ℚ))),
          estimatedHours := jsMul (.fin (weekDaysInRange fromD toD : ℚ))
            (jsDiv (getAgg o "total").hours
              (weekDaysElapsedBefore fromD toD
                (if jsTruthy (objGet o "haveEntryToday") then nowD + 1 else nowD) : ℚ)) }) := by
  rw [addProjections, if_neg (not_le.mpr h)]
  exact objGet_objSet_self _ _ _

/-! ### Claim theorems -/

/-- C1: for every list of entries, the synthesized `total` aggregate in the
object returned by `aggregateResults` equals the elementwise sum of the
hours and earnings of all per-project aggregates, taken over the project
groups in insertion order. -/
theorem total_eq_sum_of_project_aggregates (entries : List Entry)
    (config : Config) (nowMs utcOffset : ℤ) :
    objGet (aggregateResults entries config nowMs utcOffset) "total" =
      some (.agg
        { hours := ((aggregatedPairs entries config).map fun p => p.2.hours).sum,
          earnings := ((aggregatedPairs entries config).map fun p => p.2.earnings).sum }) := by
  unfold aggregateResults
  rw [objGet_objSet_ne _ _ _ _ (by decide), objGet_objSet_self, totalAgg_eq_sums]

/-- C5: when `fromDate >= toDate`, `addProjections` returns its input object
unchanged: no `projections` key is attached and no other key is modified. -/
theorem addProjections_degenerate_range (fromD toD nowD : ℤ)
    (o : List (String × JsVal)) (h : toD ≤ fromD) :
    addProjections fromD toD nowD o = o := by
  simp [addProjections, h]

/-- Witness for C5: a one-day range (`fromDate = toDate`) leaves the
aggregate object untouched. -/
theorem addProjections_degenerate_range_witness :
    (8 : ℤ) ≤ 8 ∧
    addProjections 8 8 0 [("total", JsVal.agg ⟨1, 2⟩)] =
      [("total", JsVal.agg ⟨1, 2⟩)] :=
  ⟨le_refl 8, addProjections_degenerate_range 8 8 0 _ (le_refl 8)⟩

/-- C6: the `haveEntryToday` flag in the object returned by
`aggregateResults` is true iff some entry's timestamp, after subtracting
the local process's UTC offset in minutes, lies within
`[start of today, start of today + 1 day]`, inclusive on both ends. -/
theorem haveEntryToday_window (entries : List Entry) (config : Config)
    (nowMs utcOffset : ℤ) :
    objGet (aggregateResults entries config nowMs utcOffset) "haveEntryToday" =
      some (.boolV (haveEntryTodayFlag entries nowMs utcOffset)) ∧
    (haveEntryTodayFlag entries nowMs utcOffset = true ↔
      ∃ e ∈ entries, nowMs ≤ e.date - utcOffset * 60000 ∧
        e.date - utcOffset * 60000 ≤ nowMs + 86400000) := by
  constructor
  · unfold aggregateResults
    rw [objGet_objSet_self]
  · simp [haveEntryTodayFlag, List.any_eq_true]

/-- C4: on a proper range, `weekDaysInRange` counts exactly the calendar
days from `fromDate` to `toDate` inclusive whose weekday index is neither
0 (Sunday) nor 6 (Saturday), and `weekDaysElapsed` counts exactly those
such days strictly before the reference now — the start of today, shifted
to the start of tomorrow when `haveEntryToday` is truthy. -/
theorem weekday_counts (fromD toD nowD : ℤ) (o : List (String × JsVal))
    (h : fromD < toD) :
    ∃ p : Projection,
      objGet (addProjections fromD toD nowD o) "projections" = some (.proj p) ∧
      p.weekDays = ((dayRange fromD toD).filter fun d =>
        decide (weekday d ≠ 0) && decide (weekday d ≠ 6)).length ∧
      p.weekDaysPast = ((dayRange fromD toD).filter fun d =>
        (decide (weekday d ≠ 0) && decide (weekday d ≠ 6)) &&
          decide (d < (if jsTruthy (objGet o "haveEntryToday") then nowD + 1
                       else nowD))).length := by
  have hfun : isWeekDay = fun d => decide (weekday d ≠ 0) && decide (weekday d ≠ 6) :=
    funext isWeekDay_eq_not_weekend
  refine ⟨_, addProjections_objGet fromD toD nowD o h, ?_, ?_⟩
  · show weekDaysInRange fromD toD = _
    rw [weekDaysInRange, List.countP_eq_length_filter, hfun]
  · show weekDaysElapsedBefore fromD toD _ = _
    rw [weekDaysElapsedBefore, List.countP_eq_length_filter, hfun]

/-- Witness for C4: range Monday 1970-01-05 (day 4) to Friday 1970-01-09
(day 8), today Wednesday (day 6), no aggregate keys. -/
theorem weekday_counts_witness :
    (4 : ℤ) < 8 ∧
    ∃ p : Projection,
      objGet (addProjections 4 8 6 []) "projections" = some (.proj p) ∧
      p.weekDays = ((dayRange 4 8).filter fun d =>
        decide (weekday d ≠ 0) && decide (weekday d ≠ 6)).length ∧
      p.weekDaysPast = ((dayRange 4 8).filter fun d =>
        (decide (weekday d ≠ 0) && decide (weekday d ≠ 6)) &&
          decide (d < (if jsTruthy (objGet [] "haveEntryToday") then 6 + 1
                       else 6))).length :=
  ⟨by decide, weekday_counts 4 8 6 [] (by decide)⟩

/-- C2: on a proper range with at least one elapsed week day, the attached
projection has `percentComplete = floor(100 * weekDaysElapsed / weekDaysInRange)`,
`avgEarningsPerDay = floor(total.earnings / weekDaysElapsed)`,
`avgHoursPerDay = total.hours / weekDaysElapsed` (not floored),
`estimatedEarnings = floor(avgEarningsPerDay * weekDaysInRange)` and
`estimatedHours = weekDaysInRange * (total.hours / weekDaysElapsed)`. -/
theorem projection_formulas (fromD toD nowD : ℤ) (o : List (String × JsVal))
    (h1 : fromD < toD)
    (h2 : 0 < weekDaysElapsedBefore fromD toD
      (if jsTruthy (objGet o "haveEntryToday") then nowD + 1 else nowD)) :
    objGet (addProjections fromD toD nowD o) "projections" =
      some (.proj
        { weekDays := weekDaysInRange fromD toD,
          weekDaysPast := weekDaysElapsedBefore fromD toD
            (if jsTruthy (objGet o "haveEntryToday") then nowD + 1 else nowD),
          percentComplete := .fin ⌊100 *
            (weekDaysElapsedBefore fromD toD
              (if jsTruthy (objGet o "haveEntryToday") then nowD + 1 else nowD) : ℚ) /
            (weekDaysInRange fromD toD : ℚ)⌋,
          avgEarningsPerDay := .fin ⌊(getAgg o "total").earnings /
            (weekDaysElapsedBefore fromD toD
              (if jsTruthy (objGet o "haveEntryToday") then nowD + 1 else nowD) : ℚ)⌋,
          avgHoursPerDay := .fin ((getAgg o "total").hours /
            (weekDaysElapsedBefore fromD toD
              (if jsTruthy (objGet o "haveEntryToday") then nowD + 1 else nowD) : ℚ)),
          estimatedEarnings := .fin ⌊(⌊(getAgg o "total").earnings /
            (weekDaysElapsedBefore fromD toD
              (if jsTruthy (objGet o "haveEntryToday") then nowD + 1 else nowD) : ℚ)⌋ : ℚ) *
            (weekDaysInRange fromD toD : ℚ)⌋,
          estimatedHours := .fin ((weekDaysInRange fromD toD : ℚ) *
            ((getAgg o "total").hours /
              (weekDaysElapsedBefore fromD toD
                (if jsTruthy (objGet o "haveEntryToday") then nowD + 1 else nowD) : ℚ))) }) := by
  rw [addProjections_objGet fromD toD nowD o h1]
  have hwd : 0 < weekDaysInRange fromD toD :=
    lt_of_lt_of_le h2 (weekDaysElapsedBefore_le fromD toD _)
  have hq1 : (weekDaysElapsedBefore fromD toD
      (if jsTruthy (objGet o "haveEntryToday") then nowD + 1 else nowD) : ℚ) ≠ 0 := by
    exact_mod_cast Nat.pos_iff_ne_zero.mp h2
  have hq2 : (weekDaysInRange fromD toD : ℚ) ≠ 0 := by
    exact_mod_cast Nat.pos_iff_ne_zero.mp hwd
  have hfloor : (⌊(weekDaysElapsedBefore fromD toD
        (if jsTruthy (objGet o "haveEntryToday") then nowD + 1 else nowD) : ℚ) /
        (weekDaysInRange fromD toD : ℚ) * 100⌋ : ℤ) =
      ⌊100 * (weekDaysElapsedBefore fromD toD
        (if jsTruthy (objGet o "haveEntryToday") then nowD + 1 else nowD) : ℚ) /
        (weekDaysInRange fromD toD : ℚ)⌋ := by
    congr 1
    ring
  simp [jsDiv, hq1, hq2, jsMul, jsFloor, hfloor]

/-- Witness for C2, matching the spec scenario: 5 week days in range
(Monday day 4 to Friday day 8), 2 elapsed (today Wednesday day 6, no entry
today), total earnings 100 and hours 10 give `avgEarningsPerDay = 50`,
`estimatedEarnings = 250`, `percentComplete = 40`. -/
theorem projection_formulas_witness :
    (4 : ℤ) < 8 ∧
    objGet (addProjections 4 8 6 [("total", JsVal.agg ⟨10, 100⟩)]) "projections" =
      some (.proj ⟨5, 2, .fin 40, .fin 50, .fin 5, .fin 250, .fin 25⟩) := by
  constructor
  · decide
  · have h := projection_formulas 4 8 6 [("total", JsVal.agg ⟨10, 100⟩)]
      (by decide) (by decide)
    have hb : (if jsTruthy (objGet [("total", JsVal.agg ⟨10, 100⟩)] "haveEntryToday")
        then (6 : ℤ) + 1 else 6) = 6 := by decide
    have h1 : weekDaysInRange 4 8 = 5 := by decide
    have h2 : weekDaysElapsedBefore 4 8 6 = 2 := by decide
    have hg : getAgg [("total", JsVal.agg ⟨10, 100⟩)] "total" =
        ⟨10, 100⟩ := rfl
    rw [hb, h1, h2, hg] at h
    rw [h]
    norm_num

/-- C7: a concrete input with `fromDate < toDate` and `weekDaysElapsed = 0`
(range Monday day 4 to Friday day 8, today Monday day 4, no entry today, total
hours 10 and earnings 100) on which the unguarded divisions make
`avgEarningsPerDay`, `avgHoursPerDay`, `estimatedEarnings` and
`estimatedHours` non-finite. -/
theorem projection_divide_by_zero_nonfinite :
    (4 : ℤ) < 8 ∧
    ∃ p : Projection,
      objGet (addProjections 4 8 4 [("total", JsVal.agg ⟨10, 100⟩)]) "projections" =
        some (.proj p) ∧
      p.weekDaysPast = 0 ∧
      p.avgEarningsPerDay.isFinite = false ∧
      p.avgHoursPerDay.isFinite = false ∧
      p.estimatedEarnings.isFinite = false ∧
      p.estimatedHours.isFinite = false := by
  refine ⟨by decide, ⟨5, 0, .fin 0, .inf, .inf, .inf, .inf⟩, ?_, rfl, rfl, rfl, rfl, rfl⟩
  have h1 : weekDaysInRange 4 8 = 5 := by decide
  have h2 : weekDaysElapsedBefore 4 8 4 = 0 := by decide
  simp [addProjections, objSet, objGet, jsTruthy, getAgg, h1, h2, jsDiv, jsMul, jsFloor]

/-- C9: whenever the `-f` flag or the `-t` flag is missing, both dates are
reset to the start and end of the current month, discarding any value the
other flag supplied. -/
theorem resolveRange_resets_both_dates (f t : Option String)
    (monthStart monthEnd : String) (h : f = none ∨ t = none) :
    resolveRange f t monthStart monthEnd = (monthStart, monthEnd) := by
  rcases h with h | h <;> subst h <;> simp [resolveRange, argvTruthy]

/-- Witness for C9: `-f` supplied alone is discarded and the month
defaults are used for both dates. -/
theorem resolveRange_resets_both_dates_witness :
    ((some "2016-05-10" : Option String) = none ∨ (none : Option String) = none) ∧
    resolveRange (some "2016-05-10") none "2016-05-01" "2016-05-31" =
      ("2016-05-01", "2016-05-31") :=
  ⟨Or.inr rfl, resolveRange_resets_both_dates _ _ _ _ (Or.inr rfl)⟩

/-! ### Non-negativity lemmas -/

theorem lookupNum_mem (rs : List (String × ℚ)) (k : String) (v : ℚ)
    (h : lookupNum rs k = some v) : ∃ p ∈ rs, p.2 = v := by
  induction rs with
  | nil => simp [lookupNum] at h
  | cons p rest ih =>
    by_cases hp : p.1 = k
    · simp only [lookupNum, hp, if_true, Option.some.injEq] at h
      exact ⟨p, List.mem_cons_self _ _, h⟩
    · simp only [lookupNum, hp, if_false] at h
      obtain ⟨q, hq, hv⟩ := ih h
      exact ⟨q, List.mem_cons_of_mem _ hq, hv⟩

theorem resolveRate_nonneg (rates : Option (List (String × ℚ)))
    (project : String)
    (h : ∀ rs, rates = some rs → ∀ p ∈ rs, 0 ≤ p.2) :
    0 ≤ resolveRate rates project := by
  cases rates with
  | none => exact le_refl 0
  | some rs =>
    have hrs := h rs rfl
    have hval : ∀ key : String, 0 ≤ (lookupNum rs key).getD 0 := by
      intro key
      cases hl : lookupNum rs key with
      | none => simp
      | some v =>
        simp only [Option.getD_some]
        obtain ⟨p, hp, hpv⟩ := lookupNum_mem rs key v hl
        exact hpv ▸ hrs p hp
    show (0 : ℚ) ≤
      if truthyNum (lookupNum rs project) = true then
        (lookupNum rs project).getD 0
      else if truthyNum (lookupNum rs "_default") = true then
        (lookupNum rs "_default").getD 0
      else 0
    by_cases h1 : truthyNum (lookupNum rs project) = true
    · rw [if_pos h1]
      exact hval project
    · rw [if_neg h1]
      by_cases h2 : truthyNum (lookupNum rs "_default") = true
      · rw [if_pos h2]
        exact hval "_default"
      · rw [if_neg h2]

theorem aggForGroup_nonneg (config : Config) (project : String)
    (items : List Entry) (hdur : ∀ e ∈ items, 0 ≤ e.durationSeconds)
    (hrates : ∀ rs, config.rates = some rs → ∀ p ∈ rs, 0 ≤ p.2) :
    0 ≤ (aggForGroup config project items).hours ∧
    0 ≤ (aggForGroup config project items).earnings := by
  have hsum : (0 : ℚ) ≤ (items.map (fun e => e.durationSeconds)).sum := by
    apply List.sum_nonneg
    intro x hx
    obtain ⟨e, he, rfl⟩ := List.mem_map.mp hx
    exact hdur e he
  have hhours : (0 : ℚ) ≤
      items.foldl (fun memo i => memo + i.durationSeconds) 0 / 60 / 60 := by
    rw [foldl_add_map_sum (fun e => e.durationSeconds) items 0, zero_add]
    have h60 : (0 : ℚ) ≤ 60 := by norm_num
    exact div_nonneg (div_nonneg hsum h60) h60
  exact ⟨hhours,
    mul_nonneg (resolveRate_nonneg config.rates project hrates) hhours⟩

/-- Every entry inside a group produced by the fold of `groupStep` comes
from the accumulator or from the folded list. -/
theorem groupStep_foldl_mem (l : List Entry)
    (acc : List (String × List Entry)) (P : Entry → Prop)
    (hacc : ∀ p ∈ acc, ∀ e ∈ p.2, P e) (hl : ∀ e ∈ l, P e) :
    ∀ p ∈ l.foldl groupStep acc, ∀ e ∈ p.2, P e := by
  induction l generalizing acc with
  | nil => simpa using hacc
  | cons a t ih =>
    intro p hp e he
    rw [List.foldl_cons] at hp
    refine ih (groupStep acc a) ?_
      (fun e' he' => hl e' (List.mem_cons_of_mem _ he')) p hp e he
    intro q hq e' he'
    unfold groupStep at hq
    by_cases hmem : acc.any (fun r => r.1 = a.projectName)
    · rw [if_pos hmem] at hq
      obtain ⟨r, hr, hrq⟩ := List.mem_map.mp hq
      by_cases hr1 : r.1 = a.projectName
      · rw [if_pos hr1] at hrq
        subst hrq
        rcases List.mem_append.mp he' with h' | h'
        · exact hacc r hr e' h'
        · rw [List.mem_singleton] at h'
          exact h' ▸ hl a (List.mem_cons_self _ _)
      · rw [if_neg hr1] at hrq
        subst hrq
        exact hacc r hr e' he'
    · rw [if_neg hmem] at hq
      rcases List.mem_append.mp hq with h' | h'
      · exact hacc q h' e' he'
      · rw [List.mem_singleton] at h'
        subst h'
        rw [List.mem_singleton] at he'
        exact he' ▸ hl a (List.mem_cons_self _ _)

theorem groupByProjectName_mem (entries : List Entry) :
    ∀ p ∈ groupByProjectName entries, ∀ e ∈ p.2, e ∈ entries := by
  unfold groupByProjectName
  exact groupStep_foldl_mem entries [] (· ∈ entries) (by simp) (fun e he => he)

theorem aggregatedPairs_nonneg (entries : List Entry) (config : Config)
    (hdur : ∀ e ∈ entries, 0 ≤ e.durationSeconds)
    (hrates : ∀ rs, config.rates = some rs → ∀ p ∈ rs, 0 ≤ p.2) :
    ∀ p ∈ aggregatedPairs entries config,
      0 ≤ p.2.hours ∧ 0 ≤ p.2.earnings := by
  intro p hp
  obtain ⟨q, hq, rfl⟩ := List.mem_map.mp hp
  exact aggForGroup_nonneg config q.1 q.2
    (fun e he => hdur e (groupByProjectName_mem entries q hq e he)) hrates

theorem totalAgg_nonneg (entries : List Entry) (config : Config)
    (hdur : ∀ e ∈ entries, 0 ≤ e.durationSeconds)
    (hrates : ∀ rs, config.rates = some rs → ∀ p ∈ rs, 0 ≤ p.2) :
    0 ≤ (totalAgg entries config).hours ∧
    0 ≤ (totalAgg entries config).earnings := by
  rw [totalAgg_eq_sums]
  constructor
  · apply List.sum_nonneg
    intro x hx
    obtain ⟨p, hp, rfl⟩ := List.mem_map.mp hx
    exact (aggregatedPairs_nonneg entries config hdur hrates p hp).1
  · apply List.sum_nonneg
    intro x hx
    obtain ⟨p, hp, rfl⟩ := List.mem_map.mp hx
    exact (aggregatedPairs_nonneg entries config hdur hrates p hp).2

/-- C8: with non-negative entry durations and non-negative configured
rates, every aggregate stored in the object returned by
`aggregateResults` — each per-project aggregate and the total — has
non-negative hours and non-negative earnings. -/
theorem aggregates_nonneg (entries : List Entry) (config : Config)
    (nowMs utcOffset : ℤ)
    (hdur : ∀ e ∈ entries, 0 ≤ e.durationSeconds)
    (hrates : ∀ rs, config.rates = some rs → ∀ p ∈ rs, 0 ≤ p.2)
    (k : String) (a : ProjectAggregate)
    (hget : objGet (aggregateResults entries config nowMs utcOffset) k =
      some (.agg a)) :
    0 ≤ a.hours ∧ 0 ≤ a.earnings := by
  rw [aggregateResults] at hget
  rcases objGet_objSet_cases _ _ _ _ _ hget with h | h
  · exact absurd h (by simp)
  rcases objGet_objSet_cases _ _ _ _ _ h with h2 | h2
  · have ha : a = totalAgg entries config := by
      injection h2
    exact ha ▸ totalAgg_nonneg entries config hdur hrates
  · have hmem := objGet_mem _ _ _ h2
    obtain ⟨p, hp, hpe⟩ := List.mem_map.mp hmem
    have ha : p.2 = a := by
      have := congrArg Prod.snd hpe
      injection this
    exact ha ▸ aggregatedPairs_nonneg entries config hdur hrates p hp

/-- Witness for C8: one 3600-second entry on project `A` with rate 10 has
a total aggregate `{hours: 1, earnings: 10}` with both components
non-negative. -/
theorem aggregates_nonneg_witness :
    objGet (aggregateResults [⟨0, 3600, "A", ""⟩] ⟨"u", "p", some [("A", 10)]⟩ 0 0)
        "total" = some (.agg { hours := 1, earnings := 10 }) ∧
    (0 : ℚ) ≤ 1 ∧ (0 : ℚ) ≤ 10 := by
  have hget : objGet
      (aggregateResults [⟨0, 3600, "A", ""⟩] ⟨"u", "p", some [("A", 10)]⟩ 0 0)
      "total" = some (.agg { hours := 1, earnings := 10 }) := by
    simp [aggregateResults, aggregatedPairs, groupByProjectName, groupStep,
      aggForGroup, resolveRate, lookupNum, truthyNum, totalAgg,
      haveEntryTodayFlag, objSet, objGet]
    norm_num
  refine ⟨hget, aggregates_nonneg [⟨0, 3600, "A", ""⟩] ⟨"u", "p", some [("A", 10)]⟩
    0 0 ?_ ?_ "total" { hours := 1, earnings := 10 } hget⟩
  · intro e he
    rw [List.mem_singleton] at he
    subst he
    norm_num
  · intro rs hrs p hp
    have hrs' : [(("A" : String), (10 : ℚ))] = rs := by
      injection hrs
    subst hrs'
    rw [List.mem_singleton] at hp
    subst hp
    norm_num

/-! ### Concrete entries and configurations for the concrete theorems -/

def entryA : Entry := ⟨0, 3600, "A", ""⟩

def cfgRateA : Config := ⟨"u", "p", some [("A", 10)]⟩

def cfgZeroRate : Config := ⟨"u", "p", some [("A", 0), ("_default", 5)]⟩

def entryTotalName : Entry := ⟨0, 3600, "total", ""⟩

def entryB : Entry := ⟨0, 7200, "B", ""⟩

def cfgNoRates : Config := ⟨"u", "p", none⟩

/-- Rate resolution as the spec sentence words it: `rates[project]` if
present, else `rates._default` if present, else `0` — with no truthiness
test on the configured value. -/
def specResolveRate (rates : Option (List (String × ℚ))) (project : String) : ℚ :=
  match rates with
  | none => 0
  | some rs =>
    match lookupNum rs project with
    | some v => v
    | none =>
      match lookupNum rs "_default" with
      | some d => d
      | none => 0

/-- Counterexample to C3 as stated: with rates `{A: 0, _default: 5}` the
configured rate for project `A` is present (and is `0`), yet a single
3600-second entry on `A` is aggregated with earnings `5`, not
`hours * rates[A] = 0`: the code falls through to `_default` because `0`
is falsy. -/
theorem rate_present_but_zero_counterexample :
    specResolveRate cfgZeroRate.rates "A" = 0 ∧
    objGet (aggregateResults [entryA] cfgZeroRate 0 0) "A" =
      some (.agg { hours := 1, earnings := 5 }) ∧
    (5 : ℚ) ≠ 1 * specResolveRate cfgZeroRate.rates "A" := by
  refine ⟨rfl, ?_, ?_⟩
  · simp [aggregateResults, aggregatedPairs, groupByProjectName, groupStep, aggForGroup,
      resolveRate, lookupNum, truthyNum, totalAgg, haveEntryTodayFlag,
      objSet, objGet, entryA, cfgZeroRate]
    norm_num
  · rw [show specResolveRate cfgZeroRate.rates "A" = 0 from rfl]
    norm_num

/-- C3 amended: every project group is aggregated with
`hours = (sum of durationSeconds) / 3600` and
`earnings = hours * rate`, where the rate is `rates[project]` if present
with a nonzero value, else `rates._default` if present with a nonzero
value, else `0` (`resolveRate`); a zero configured rate falls through to
`_default`, and a single 3600-second entry on `A` with rates `{A: 10}`
yields the aggregate `{A: {hours: 1, earnings: 10}}`. -/
theorem rate_resolution_amended :
    (∀ config project items,
      aggForGroup config project items =
        { hours := (items.map Entry.durationSeconds).sum / 3600,
          earnings := (items.map Entry.durationSeconds).sum / 3600 *
            resolveRate config.rates project }) ∧
    resolveRate cfgZeroRate.rates "A" = 5 ∧
    objGet (aggregateResults [entryA] cfgRateA 0 0) "A" =
      some (.agg { hours := 1, earnings := 10 }) := by
  refine ⟨?_, ?_, ?_⟩
  · intro config project items
    unfold aggForGroup
    rw [foldl_add_map_sum (fun e => e.durationSeconds) items 0]
    simp only [zero_add, div_div]
    norm_num [mul_comm]
  · norm_num [resolveRate, cfgZeroRate, lookupNum, truthyNum,
      show ("A" : String) ≠ "_default" from by decide]
  · simp [aggregateResults, aggregatedPairs, groupByProjectName, groupStep, aggForGroup,
      resolveRate, lookupNum, truthyNum, totalAgg, haveEntryTodayFlag,
      objSet, objGet, entryA, cfgRateA]
    norm_num

/-- C10: when a fetched entry's project is literally named `total`, the
per-project aggregate for that group (here `{hours: 1, earnings: 0}`) is
overwritten by the synthesized grand total (`{hours: 3, earnings: 0}`,
which still sums the shadowed group) at the shared key `total`, which
occurs exactly once in the returned object. -/
theorem total_key_collision :
    aggForGroup cfgNoRates "total" [entryTotalName] =
      { hours := 1, earnings := 0 } ∧
    objGet (aggregateResults [entryTotalName, entryB] cfgNoRates 0 0) "total" =
      some (.agg { hours := 3, earnings := 0 }) ∧
    ((aggregateResults [entryTotalName, entryB] cfgNoRates 0 0).countP
      fun p => decide (p.1 = "total")) = 1 := by
  refine ⟨?_, ?_, ?_⟩
  · simp [aggForGroup, resolveRate, cfgNoRates, entryTotalName]
    norm_num
  · simp [aggregateResults, aggregatedPairs, groupByProjectName, groupStep, aggForGroup,
      resolveRate, cfgNoRates, totalAgg, haveEntryTodayFlag,
      objSet, objGet, entryTotalName, entryB]
    norm_num
  · decide

end MeazureAgg
